import Mathlib

/-!
Shallow embedding of the chrF scoring core of SacreBLEU
(src/sacrebleu/metrics/chrf.py and src/sacrebleu/metrics/helpers.py).

Strings are modelled as `List Char`; Python `Counter` objects over n-grams are
modelled as `Multiset (List Char)` (Counter intersection `&` is multiset
intersection, `sum(counter.values())` is `Multiset.card`).  Python floats are
modelled as exact rationals `ℚ`: every arithmetic operation the scorer performs
(`+`, `*`, `/`, `**2` on values derived from small integer counts) is exact.
Python code that can raise (`assert`, `raise EOFError`, `str.format` with an
`int` format code applied to a `float`) is modelled in `Except String`.
-/

namespace SacreBLEU

/-- A Python numeric value: an `int` or a `float`.  The payload of a float is
kept as an exact rational; the constructor records the runtime type tag, which
is what `str.format` dispatches on. -/
inductive PyNum where
  | int : ℤ → PyNum
  | float : ℚ → PyNum
deriving DecidableEq, Repr

/-- The numeric value of a Python number. -/
def PyNum.toRat : PyNum → ℚ
  | .int n => (n : ℚ)
  | .float q => q

/-- The message of the `ValueError` Python raises when the `d` format code is
applied to a `float`. -/
def intFormatErrMsg : String :=
  "ValueError: Unknown format code d for object of type float"

/-- Python `'{0:d}'.format(x)`: renders an `int` in decimal, raises
`ValueError: Unknown format code` when `x` is a `float` (even an
integer-valued one such as `2.0`). -/
def formatIntSpec : PyNum → Except String String
  | .int n => .ok (toString n)
  | .float _ => .error intFormatErrMsg

/-- Left-pad a string with `0` up to length `w`, used to render the fractional
digits of a fixed-point number. -/
def padZeros (s : String) (w : ℕ) : String :=
  String.mk (List.replicate (w - s.length) '0') ++ s

/-- Python `'{0:.{1}f}'.format(q, w)` on an exact rational: fixed-point decimal
with `w` digits after the point, rounding to the nearest multiple of
`10 ^ (-w)` (ties away from zero only matter on exact ties, which no value in
this development hits). -/
def formatFixed (q : ℚ) (w : ℕ) : String :=
  let n : ℤ := round (q * (10 : ℚ) ^ w)
  let sign := if n < 0 then "-" else ""
  let m := n.natAbs
  if w = 0 then
    sign ++ toString (m : ℤ)
  else
    sign ++ toString ((m / 10 ^ w : ℕ) : ℤ) ++ "." ++ padZeros (toString ((m % 10 ^ w : ℕ) : ℤ)) w

/-- `CHRFScore` value object (chrf.py lines 27-42).  `pfx` models the Python
attribute `prefix`, computed in `__init__` as `'chrF{0:d}'.format(self.beta)`. -/
structure CHRFScore where
  score : ℚ
  beta : PyNum
  order : ℕ
  pfx : String
deriving DecidableEq, Repr

/-- `CHRFScore.__init__`: stores the score and configuration and eagerly
formats the report prefix `'chrF{0:d}'.format(self.beta)`; construction
fails when `beta` is a float, because the `d` format code rejects floats. -/
def CHRFScore.init (score : ℚ) (beta : PyNum) (order : ℕ) : Except String CHRFScore := do
  let p ← formatIntSpec beta
  pure { score := score, beta := beta, order := order, pfx := "chrF" ++ p }

/-- `CHRFScore.format(width, score_only, signature)` (chrf.py lines 35-42):
bumps the width by one, then either renders just the score or
`"<prefix>[+<signature>] = <score>"`. -/
def CHRFScore.format (s : CHRFScore) (width : ℕ) (score_only : Bool) (signature : String) : String :=
  let width := width + 1
  if score_only then
    formatFixed s.score width
  else
    let pr := if signature ≠ "" then s.pfx ++ "+" ++ signature else s.pfx
    pr ++ " = " ++ formatFixed s.score width

/-- Modelled from the spec: the tokenizers module (`BaseTokenizer`,
`TokenizerChrf` in sacrebleu/tokenizers.py) is not included under src/.
Per the spec, the default chrF tokenizer strips whitespace before extraction
(configuration `strip_whitespace: bool (default true)`; chrf.py docstring:
`whitespace: If True, includes the whitespace character in chrF computation`),
so `TokenizerChrf` removes every whitespace character from the segment. -/
def TokenizerChrf (s : List Char) : List Char :=
  s.filter fun c => !c.isWhitespace

/-- Modelled from the spec: `BaseTokenizer` is the identity tokenizer used
when `whitespace=True`, keeping the segment unchanged. -/
def BaseTokenizer (s : List Char) : List Char := s

/-- The `CHRF` metric configuration (chrf.py lines 62-78).  `lowercase` and
`num_refs` are stored but unused by the scoring code, exactly as in the
source. -/
structure CHRF where
  whitespace : Bool
  order : ℕ
  beta : PyNum
  lowercase : Bool
  num_refs : ℕ
deriving DecidableEq, Repr

/-- The default configuration `CHRF()`: `whitespace=False, order=6, beta=2`
(an `int`), `lowercase=False, num_refs=1`. -/
def chrfDefault : CHRF :=
  { whitespace := false, order := 6, beta := .int 2, lowercase := false, num_refs := 1 }

/-- Tokenizer selection from `CHRF.__init__`: `BaseTokenizer` when
`whitespace` is set, else `TokenizerChrf`. -/
def CHRF.tokenize (m : CHRF) (s : List Char) : List Char :=
  if m.whitespace then BaseTokenizer s else TokenizerChrf s

/-- `extract_char_ngrams(line, n)` (helpers.py lines 23-30):
`Counter([line[i:i + n] for i in range(len(line) - n + 1)])`.  The Python
range is empty when `len(line) - n + 1 ≤ 0`; in ℕ that bound is
`line.length + 1 - n` with truncated subtraction. -/
def extract_char_ngrams (line : List Char) (n : ℕ) : Multiset (List Char) :=
  ((List.range (line.length + 1 - n)).map fun i => (line.drop i).take n : List (List Char))

/-- `CHRF.get_sentence_statistics` (chrf.py lines 114-130): tokenizes the
hypothesis and `references[0]` and, for each order `n = i + 1` with
`i < order`, emits the triplet
`(sum(hyp_ngrams.values()), sum(ref_ngrams.values()), sum((hyp & ref).values()))`
into slots `3*i, 3*i+1, 3*i+2`.  All call sites pass a non-empty reference
list; `headD` returns the first element there. -/
def CHRF.get_sentence_statistics (m : CHRF) (hypothesis : List Char)
    (references : List (List Char)) : List ℕ :=
  let reference := references.headD []
  let hyp := m.tokenize hypothesis
  let ref := m.tokenize reference
  (List.range m.order).flatMap fun i =>
    let n := i + 1
    let hypothesis_ngrams := extract_char_ngrams hyp n
    let reference_ngrams := extract_char_ngrams ref n
    let common_ngrams := hypothesis_ngrams ∩ reference_ngrams
    [Multiset.card hypothesis_ngrams, Multiset.card reference_ngrams,
     Multiset.card common_ngrams]

/-- One iteration of the `for i in range(order)` loop of `compute_chrf`
(chrf.py lines 90-97), acting on the accumulator
`(avg_precision, avg_recall, effective_order)`. -/
def chrfStep (statistics : List ℕ) (acc : ℚ × ℚ × ℕ) (i : ℕ) : ℚ × ℚ × ℕ :=
  let hypotheses_ngrams := statistics.getD (3 * i + 0) 0
  let references_ngrams := statistics.getD (3 * i + 1) 0
  let common_ngrams := statistics.getD (3 * i + 2) 0
  if 0 < hypotheses_ngrams ∧ 0 < references_ngrams then
    (acc.1 + (common_ngrams : ℚ) / (hypotheses_ngrams : ℚ),
     acc.2.1 + (common_ngrams : ℚ) / (references_ngrams : ℚ),
     acc.2.2 + 1)
  else acc

/-- The numeric part of `CHRF.compute_chrf` (chrf.py lines 85-110): the loop
accumulating precision, recall and the effective order, the averaging step,
and the F-beta combination guarded by `avg_precision + avg_recall == 0`. -/
def compute_chrf_score (statistics : List ℕ) (order : ℕ) (beta : ℚ) : ℚ :=
  let acc := (List.range order).foldl (chrfStep statistics) (0, 0, 0)
  let avg_precision := if acc.2.2 = 0 then 0 else acc.1 / (acc.2.2 : ℚ)
  let avg_recall := if acc.2.2 = 0 then 0 else acc.2.1 / (acc.2.2 : ℚ)
  if avg_precision + avg_recall = 0 then 0
  else (1 + beta ^ 2) * (avg_precision * avg_recall) / (beta ^ 2 * avg_precision + avg_recall)

/-- `CHRF.compute_chrf` (chrf.py lines 80-112): computes the score and returns
`CHRFScore(score, beta, order)`; the constructor call fails when `beta` is a
float. -/
def compute_chrf (statistics : List ℕ) (order : ℕ) (beta : PyNum) : Except String CHRFScore :=
  CHRFScore.init (compute_chrf_score statistics order beta.toRat) beta order

/-- The `references` argument of `sentence_score` as the Python caller may
pass it: a bare string or a list of strings.  The `assert` in
`sentence_score` distinguishes the two. -/
inductive RefsArg where
  | str : List Char → RefsArg
  | list : List (List Char) → RefsArg
deriving DecidableEq, Repr

/-- The assertion message of `sentence_score` (chrf.py lines 140-141). -/
def sentenceScoreAssertMsg : String :=
  "AssertionError: sentence_score needs a list of references, not a single string"

/-- `CHRF.sentence_score` (chrf.py lines 132-143): asserts that `references`
is not a single string (before computing any statistics), then scores the
per-sentence statistics vector. -/
def CHRF.sentence_score (m : CHRF) (hypothesis : List Char) (references : RefsArg) :
    Except String CHRFScore :=
  match references with
  | .str _ => .error sentenceScoreAssertMsg
  | .list refs => compute_chrf (m.get_sentence_statistics hypothesis refs) m.order m.beta

/-- The `sys_stream` argument of `corpus_score`: `Union[str, Iterable[str]]`. -/
inductive SysStreamArg where
  | str : List Char → SysStreamArg
  | stream : List (List Char) → SysStreamArg
deriving DecidableEq, Repr

/-- The `ref_streams` argument of `corpus_score`:
`Union[str, List[Iterable[str]]]`. -/
inductive RefStreamsArg where
  | str : List Char → RefStreamsArg
  | streams : List (List (List Char)) → RefStreamsArg
deriving DecidableEq, Repr

/-- `if isinstance(sys_stream, str): sys_stream = [sys_stream]`. -/
def SysStreamArg.normalize : SysStreamArg → List (List Char)
  | .str s => [s]
  | .stream l => l

/-- `if isinstance(ref_streams, str): ref_streams = [[ref_streams]]`. -/
def RefStreamsArg.normalize : RefStreamsArg → List (List (List Char))
  | .str s => [[s]]
  | .streams l => l

/-- The message of the `EOFError` raised by `corpus_score` on a stream length
mismatch (chrf.py line 167). -/
def streamMismatchMsg : String :=
  "EOFError: Source and reference streams have different lengths!"

/-- `itertools.zip_longest(*fhs)` over in-memory streams: the `i`-th output
tuple holds the `i`-th element of each stream, `none` standing for the `None`
fill value once a stream is exhausted; iteration stops when every stream is
exhausted, i.e. after `max` of the lengths tuples. -/
def zipLongest (fhs : List (List (List Char))) : List (List (Option (List Char))) :=
  (List.range ((fhs.map List.length).foldl max 0)).map fun i => fhs.map fun l => l.get? i

/-- The body of the `for lines in zip_longest(*fhs)` loop of `corpus_score`
(chrf.py lines 165-174): raise `EOFError` if `None in lines`, otherwise
unpack `hypothesis, *refs = lines` and add the sentence statistics
element-wise into the running corpus vector. -/
def corpusStep (m : CHRF) (acc : List ℕ) (lines : List (Option (List Char))) :
    Except String (List ℕ) :=
  if lines.any Option.isNone then .error streamMismatchMsg
  else
    match lines.reduceOption with
    | [] => .ok acc
    | hypothesis :: refs => .ok (List.zipWith (· + ·) acc (m.get_sentence_statistics hypothesis refs))

/-- `CHRF.corpus_score` (chrf.py lines 145-176): normalizes bare-string
arguments, walks `zip_longest([sys_stream] + ref_streams)` accumulating the
summed statistics vector from `[0] * (order * 3)`, and invokes
`compute_chrf` once on the final sum. -/
def CHRF.corpus_score (m : CHRF) (sys_stream : SysStreamArg) (ref_streams : RefStreamsArg) :
    Except String CHRFScore := do
  let fhs := [sys_stream.normalize] ++ ref_streams.normalize
  let stats ← (zipLongest fhs).foldlM (corpusStep m) (List.replicate (m.order * 3) 0)
  compute_chrf stats m.order m.beta

/-! ### Specification-side definitions

These restate, in the vocabulary of the natural-language specification, what
the scoring pipeline is claimed to compute; the theorems below relate them to
the embedded code. -/

/-- The effective orders of a statistics vector: the orders (0-based) whose
hypothesis and reference n-gram counts are both strictly positive.  Orders
outside this set are skipped by the scorer, not counted as zero. -/
def effOrders (statistics : List ℕ) (order : ℕ) : Finset ℕ :=
  (Finset.range order).filter fun i =>
    0 < statistics.getD (3 * i) 0 ∧ 0 < statistics.getD (3 * i + 1) 0

/-- The per-sentence statistics vectors of the aligned pairs of a corpus: the
`i`-th hypothesis against the `i`-th element of every reference stream. -/
def perSentenceStats (m : CHRF) (sys : List (List Char))
    (refs : List (List (List Char))) : List (List ℕ) :=
  (List.range sys.length).map fun i =>
    m.get_sentence_statistics (sys.getD i []) (refs.map fun r => r.getD i [])

/-- The element-wise sum of the per-sentence statistics vectors, starting from
an all-zero vector of length `3 × order`. -/
def pooledStats (m : CHRF) (sys : List (List Char))
    (refs : List (List (List Char))) : List ℕ :=
  (perSentenceStats m sys refs).foldl (List.zipWith (· + ·))
    (List.replicate (m.order * 3) 0)

/-- The statistics-vector invariant of the spec data model: length
`3 × order`, and every triplet satisfies
`common_count ≤ min (hyp_count, ref_count)`.  (Entries are naturals, so
non-negativity is carried by the type.) -/
def StatsInvariant (order : ℕ) (v : List ℕ) : Prop :=
  v.length = 3 * order ∧
    ∀ i < order, v.getD (3 * i + 2) 0 ≤ min (v.getD (3 * i) 0) (v.getD (3 * i + 1) 0)

instance : DecidablePred (StatsInvariant order) := fun v => by
  unfold StatsInvariant; infer_instance

instance {ε α : Type} [DecidableEq ε] [DecidableEq α] : DecidableEq (Except ε α) := fun a b =>
  match a, b with
  | .ok x, .ok y =>
      if h : x = y then .isTrue (by rw [h]) else .isFalse (by simp [h])
  | .ok _, .error _ => .isFalse (by simp)
  | .error _, .ok _ => .isFalse (by simp)
  | .error e, .error f =>
      if h : e = f then .isTrue (by rw [h]) else .isFalse (by simp [h])

/-! ### Helper lemmas -/

lemma reduceOption_map_some (l : List α) : (l.map some).reduceOption = l := by
  induction l with
  | nil => rfl
  | cons a l ih => simp [List.reduceOption_cons_of_some, ih]

lemma foldl_max_eq_of_forall_eq (l : List ℕ) (L : ℕ) (h : ∀ x ∈ l, x = L) :
    l.foldl max L = L := by
  induction l with
  | nil => rfl
  | cons a l ih =>
      have ha : a = L := h a (by simp)
      simp only [List.foldl_cons, ha, max_self]
      exact ih fun x hx => h x (by simp [hx])

lemma le_foldl_max (l : List ℕ) (a : ℕ) : a ≤ l.foldl max a ∧ ∀ x ∈ l, x ≤ l.foldl max a := by
  induction l generalizing a with
  | nil => simp
  | cons b l ih =>
      refine ⟨le_trans (le_max_left a b) (ih (max a b)).1, ?_⟩
      intro x hx
      rcases List.mem_cons.mp hx with rfl | hx
      · exact le_trans (le_max_right a x) (ih (max a x)).1
      · exact (ih (max a b)).2 x hx

/-- A monadic fold in `Except` whose every step succeeds computes the
corresponding pure fold. -/
lemma foldlM_ok_of_forall_ok {ε α β : Type} (f : β → α → Except ε β) (g : β → α → β)
    (l : List α) (h : ∀ a ∈ l, ∀ b, f b a = .ok (g b a)) (b : β) :
    l.foldlM f b = .ok (l.foldl g b) := by
  induction l generalizing b with
  | nil => rfl
  | cons a l ih =>
      rw [List.foldlM_cons, h a (by simp) b]
      exact ih (fun x hx b' => h x (by simp [hx]) b') (g b a)

/-- A monadic fold in `Except` whose steps each either succeed or fail with a
fixed error `e`, and at least one of whose elements always fails, fails with
`e`. -/
lemma foldlM_error_of_exists {ε α β : Type} (f : β → α → Except ε β) (e : ε) (l : List α)
    (hall : ∀ b, ∀ a ∈ l, f b a = .error e ∨ ∃ b', f b a = .ok b')
    (hex : ∃ a ∈ l, ∀ b, f b a = .error e) (b : β) :
    l.foldlM f b = .error e := by
  induction l generalizing b with
  | nil => simp at hex
  | cons a l ih =>
      rw [List.foldlM_cons]
      obtain ⟨a₀, ha₀, herr⟩ := hex
      rcases List.mem_cons.mp ha₀ with rfl | ha₀
      · rw [herr b]; rfl
      · rcases hall b a (by simp) with hb | ⟨b', hb⟩
        · rw [hb]; rfl
        · rw [hb]
          exact ih (fun c x hx => hall c x (by simp [hx])) ⟨a₀, ha₀, herr⟩ b'

lemma multiset_inter_self {α : Type} [DecidableEq α] (s : Multiset α) : s ∩ s = s := by
  ext a
  simp [Multiset.count_inter]

/-- The cardinality of a multiset intersection is the sum, over the shared
support, of the minimum of the two multiplicities. -/
lemma card_inter_eq_sum_min {α : Type} [DecidableEq α] (A B : Multiset α) :
    Multiset.card (A ∩ B) = ∑ g ∈ A.toFinset ∩ B.toFinset, min (A.count g) (B.count g) := by
  rw [← Multiset.toFinset_sum_count_eq (A ∩ B), Multiset.toFinset_inter]
  exact Finset.sum_congr rfl fun g _ => by rw [Multiset.count_inter]

lemma length_flatMap_const3 (g : ℕ → List ℕ) (hg : ∀ i, (g i).length = 3) (l : List ℕ) :
    (l.flatMap g).length = 3 * l.length := by
  induction l with
  | nil => rfl
  | cons a l ih =>
      rw [List.flatMap_cons, List.length_append, hg, ih, List.length_cons]
      ring

/-- Indexing into a concatenation of uniformly 3-element blocks over
`List.range n`: position `3 * i + j` reads entry `j` of block `i`. -/
lemma getD_flatMap_range_three (g : ℕ → List ℕ) (hg : ∀ i, (g i).length = 3)
    (n i j : ℕ) (hi : i < n) (hj : j < 3) :
    ((List.range n).flatMap g).getD (3 * i + j) 0 = (g i).getD j 0 := by
  obtain ⟨k, rfl⟩ : ∃ k, n = (i + 1) + k := ⟨n - (i + 1), by omega⟩
  rw [List.range_add, List.flatMap_append,
    List.getD_append _ _ _ _ (by rw [length_flatMap_const3 g hg, List.length_range]; omega)]
  rw [List.range_succ, List.flatMap_append,
    List.getD_append_right _ _ _ _ (by rw [length_flatMap_const3 g hg, List.length_range]; omega)]
  rw [length_flatMap_const3 g hg, List.length_range]
  have hj' : 3 * i + j - 3 * i = j := by omega
  rw [hj', List.flatMap_cons, List.flatMap_nil, List.append_nil]

/-- The statistics triplet a single order contributes: total hypothesis
n-gram count, total reference n-gram count, and the cardinality of their
multiset intersection, for order `i + 1` on already-tokenized segments. -/
def statTriple (hyp ref : List Char) (i : ℕ) : List ℕ :=
  [Multiset.card (extract_char_ngrams hyp (i + 1)),
   Multiset.card (extract_char_ngrams ref (i + 1)),
   Multiset.card (extract_char_ngrams hyp (i + 1) ∩ extract_char_ngrams ref (i + 1))]

lemma statTriple_length (hyp ref : List Char) : ∀ i, (statTriple hyp ref i).length = 3 :=
  fun _ => rfl

/-- `get_sentence_statistics` written as a concatenation of per-order
triplets over the tokenized hypothesis and first reference. -/
lemma get_sentence_statistics_eq (m : CHRF) (hyp : List Char) (refs : List (List Char)) :
    m.get_sentence_statistics hyp refs =
      (List.range m.order).flatMap
        (statTriple (m.tokenize hyp) (m.tokenize (refs.headD []))) := rfl

lemma length_get_sentence_statistics (m : CHRF) (hyp : List Char) (refs : List (List Char)) :
    (m.get_sentence_statistics hyp refs).length = 3 * m.order := by
  rw [get_sentence_statistics_eq,
    length_flatMap_const3 _ (statTriple_length _ _), List.length_range]

/-- The triplet of `get_sentence_statistics` at order `i + 1`: total
hypothesis n-gram count, total first-reference n-gram count, and the
cardinality of the multiset intersection. -/
lemma get_sentence_statistics_getD (m : CHRF) (hyp : List Char) (refs : List (List Char))
    (i : ℕ) (hi : i < m.order) :
    (m.get_sentence_statistics hyp refs).getD (3 * i) 0 =
        Multiset.card (extract_char_ngrams (m.tokenize hyp) (i + 1)) ∧
      (m.get_sentence_statistics hyp refs).getD (3 * i + 1) 0 =
        Multiset.card (extract_char_ngrams (m.tokenize (refs.headD [])) (i + 1)) ∧
      (m.get_sentence_statistics hyp refs).getD (3 * i + 2) 0 =
        Multiset.card (extract_char_ngrams (m.tokenize hyp) (i + 1) ∩
          extract_char_ngrams (m.tokenize (refs.headD [])) (i + 1)) := by
  rw [get_sentence_statistics_eq]
  refine ⟨?_, ?_, ?_⟩
  · have := getD_flatMap_range_three _ (statTriple_length (m.tokenize hyp)
      (m.tokenize (refs.headD []))) m.order i 0 hi (by omega)
    simpa using this
  · exact getD_flatMap_range_three _ (statTriple_length (m.tokenize hyp)
      (m.tokenize (refs.headD []))) m.order i 1 hi (by omega)
  · exact getD_flatMap_range_three _ (statTriple_length (m.tokenize hyp)
      (m.tokenize (refs.headD []))) m.order i 2 hi (by omega)

/-- The `compute_chrf` loop accumulates exactly the sums of per-order
precisions and recalls over the effective orders, and counts them. -/
lemma chrf_foldl_eq (statistics : List ℕ) (order : ℕ) :
    (List.range order).foldl (chrfStep statistics) (0, 0, 0) =
      (∑ i ∈ effOrders statistics order,
         (statistics.getD (3 * i + 2) 0 : ℚ) / (statistics.getD (3 * i) 0 : ℚ),
       ∑ i ∈ effOrders statistics order,
         (statistics.getD (3 * i + 2) 0 : ℚ) / (statistics.getD (3 * i + 1) 0 : ℚ),
       (effOrders statistics order).card) := by
  induction order with
  | zero => simp [effOrders]
  | succ n ih =>
      rw [List.range_succ, List.foldl_append, ih]
      have hnot : n ∉ (Finset.range n).filter fun i =>
          0 < statistics.getD (3 * i) 0 ∧ 0 < statistics.getD (3 * i + 1) 0 := by
        intro hmem
        exact absurd (Finset.mem_range.mp (Finset.mem_filter.mp hmem).1) (lt_irrefl n)
      by_cases hq : 0 < statistics.getD (3 * n) 0 ∧ 0 < statistics.getD (3 * n + 1) 0
      · rw [List.foldl_cons, List.foldl_nil]
        unfold chrfStep
        simp only [Nat.add_zero]
        rw [if_pos hq]
        unfold effOrders
        rw [Finset.range_succ, Finset.filter_insert, if_pos hq,
          Finset.sum_insert hnot, Finset.sum_insert hnot,
          Finset.card_insert_of_not_mem hnot]
        exact congrArg₂ Prod.mk (add_comm _ _) (congrArg₂ Prod.mk (add_comm _ _) rfl)
      · rw [List.foldl_cons, List.foldl_nil]
        unfold chrfStep
        simp only [Nat.add_zero]
        rw [if_neg hq]
        unfold effOrders
        rw [Finset.range_succ, Finset.filter_insert, if_neg hq]

/-- `compute_chrf_score` in terms of averaged sums over the effective-order
set: skipped orders never enter the sums, an empty effective set yields score
0, and otherwise the averaged precision and recall feed the F-beta formula
unless their sum is zero. -/
lemma compute_chrf_score_spec (statistics : List ℕ) (order : ℕ) (beta : ℚ) :
    compute_chrf_score statistics order beta =
      if (effOrders statistics order).card = 0 then 0
      else
        let avg_precision :=
          (∑ i ∈ effOrders statistics order,
            (statistics.getD (3 * i + 2) 0 : ℚ) / (statistics.getD (3 * i) 0 : ℚ)) /
            ((effOrders statistics order).card : ℚ)
        let avg_recall :=
          (∑ i ∈ effOrders statistics order,
            (statistics.getD (3 * i + 2) 0 : ℚ) / (statistics.getD (3 * i + 1) 0 : ℚ)) /
            ((effOrders statistics order).card : ℚ)
        if avg_precision + avg_recall = 0 then 0
        else (1 + beta ^ 2) * (avg_precision * avg_recall) /
          (beta ^ 2 * avg_precision + avg_recall) := by
  unfold compute_chrf_score
  rw [chrf_foldl_eq]
  by_cases hc : (effOrders statistics order).card = 0
  · simp [hc]
  · simp [hc]

lemma compute_chrf_int_ok (stats : List ℕ) (order : ℕ) (n : ℤ) :
    compute_chrf stats order (.int n) =
      .ok { score := compute_chrf_score stats order (n : ℚ), beta := .int n, order := order,
            pfx := "chrF" ++ toString n } := rfl

lemma compute_chrf_float_err (stats : List ℕ) (order : ℕ) (q : ℚ) :
    compute_chrf stats order (.float q) = .error intFormatErrMsg := rfl

lemma compute_chrf_ne_mismatch (stats : List ℕ) (order : ℕ) (beta : PyNum) :
    compute_chrf stats order beta ≠ .error streamMismatchMsg := by
  cases beta with
  | int n => rw [compute_chrf_int_ok]; exact fun h => Except.noConfusion h
  | float q =>
      rw [compute_chrf_float_err]
      intro h
      have : intFormatErrMsg = streamMismatchMsg := by injection h
      exact absurd this (by decide)

/-- With all streams of equal length, `zip_longest` iterates exactly
`sys.length` times. -/
lemma maxLen_eq (sys : List (List Char)) (refs : List (List (List Char)))
    (h : ∀ r ∈ refs, r.length = sys.length) :
    ((([sys] ++ refs).map List.length).foldl max 0) = sys.length := by
  have : ([sys] ++ refs).map List.length = sys.length :: refs.map List.length := rfl
  rw [this, List.foldl_cons, Nat.zero_max]
  exact foldl_max_eq_of_forall_eq _ _ fun x hx => by
    obtain ⟨r, hr, rfl⟩ := List.mem_map.mp hx
    exact h r hr

/-- With all streams of equal length, the `corpus_score` fold never raises
and computes exactly the element-wise sum of the per-sentence statistics
vectors starting from the all-zero vector. -/
lemma corpus_fold_ok (m : CHRF) (sys : List (List Char)) (refs : List (List (List Char)))
    (h : ∀ r ∈ refs, r.length = sys.length) :
    (zipLongest ([sys] ++ refs)).foldlM (corpusStep m) (List.replicate (m.order * 3) 0) =
      .ok (pooledStats m sys refs) := by
  unfold zipLongest
  rw [maxLen_eq sys refs h, List.foldlM_map]
  rw [foldlM_ok_of_forall_ok _
    (fun acc i => List.zipWith (· + ·) acc
      (m.get_sentence_statistics (sys.getD i []) (refs.map fun r => r.getD i []))) _ ?_]
  · congr 1
    unfold pooledStats perSentenceStats
    rw [List.foldl_map]
  · intro i hi acc
    have hi' : i < sys.length := List.mem_range.mp hi
    have hsys : sys.get? i = some (sys.getD i []) := by
      rw [List.getD_eq_getElem _ _ hi', List.get?_eq_getElem?, List.getElem?_eq_getElem hi']
    have hrefs : (refs.map fun l => l.get? i) = (refs.map fun r => r.getD i []).map some := by
      rw [List.map_map]
      exact List.map_congr_left fun r hr => by
        have hir : i < r.length := by rw [h r hr]; exact hi'
        rw [List.get?_eq_getElem?, List.getElem?_eq_getElem hir, Function.comp_apply,
          List.getD_eq_getElem _ _ hir]
    have hlines : ([sys] ++ refs).map (fun l => l.get? i) =
        some (sys.getD i []) :: (refs.map fun r => r.getD i []).map some := by
      rw [show ([sys] ++ refs).map (fun l => l.get? i) =
        sys.get? i :: (refs.map fun l => l.get? i) from rfl, hsys, hrefs]
    rw [hlines]
    unfold corpusStep
    rw [if_neg (by simp)]
    rw [List.reduceOption_cons_of_some, reduceOption_map_some]

/-- With all streams of equal length, `corpus_score` computes `compute_chrf`
of the pooled statistics vector. -/
lemma corpus_score_eq_pooled (m : CHRF) (sys : List (List Char))
    (refs : List (List (List Char))) (h : ∀ r ∈ refs, r.length = sys.length) :
    m.corpus_score (.stream sys) (.streams refs) =
      compute_chrf (pooledStats m sys refs) m.order m.beta := by
  show (zipLongest ([sys] ++ refs)).foldlM (corpusStep m) (List.replicate (m.order * 3) 0) >>=
      (fun stats => compute_chrf stats m.order m.beta) =
    compute_chrf (pooledStats m sys refs) m.order m.beta
  rw [corpus_fold_ok m sys refs h]
  rfl

/-- With streams of unequal length, the `corpus_score` fold raises the
`EOFError` and no statistics vector survives. -/
lemma corpus_score_mismatch (m : CHRF) (sys : List (List Char))
    (refs : List (List (List Char))) (r₀ : List (List Char)) (hr : r₀ ∈ refs)
    (hne : r₀.length ≠ sys.length) :
    m.corpus_score (.stream sys) (.streams refs) = .error streamMismatchMsg := by
  show (zipLongest ([sys] ++ refs)).foldlM (corpusStep m) (List.replicate (m.order * 3) 0) >>=
      (fun stats => compute_chrf stats m.order m.beta) =
    .error streamMismatchMsg
  rw [foldlM_error_of_exists (corpusStep m) streamMismatchMsg _ ?_ ?_]
  · rfl
  · intro b lines _
    unfold corpusStep
    split
    · exact Or.inl rfl
    · split
      · exact Or.inr ⟨_, rfl⟩
      · exact Or.inr ⟨_, rfl⟩
  · have hsysmem : sys.length ≤ (([sys] ++ refs).map List.length).foldl max 0 :=
      (le_foldl_max _ _).2 sys.length (by simp)
    have hrmem : r₀.length ≤ (([sys] ++ refs).map List.length).foldl max 0 :=
      (le_foldl_max _ _).2 r₀.length (List.mem_map.mpr ⟨r₀, by simp [hr], rfl⟩)
    refine ⟨([sys] ++ refs).map (fun l => l.get? (min sys.length r₀.length)), ?_, ?_⟩
    · unfold zipLongest
      exact List.mem_map.mpr ⟨min sys.length r₀.length,
        List.mem_range.mpr (by omega), rfl⟩
    · intro b
      unfold corpusStep
      rw [if_pos ?_]
      rw [List.any_eq_true]
      rcases Nat.lt_or_ge sys.length r₀.length with hlt | hge
      · refine ⟨sys.get? (min sys.length r₀.length), by simp, ?_⟩
        have : min sys.length r₀.length = sys.length := by omega
        rw [this, List.get?_eq_getElem?, List.getElem?_eq_none (le_refl _)]
        rfl
      · refine ⟨r₀.get? (min sys.length r₀.length), List.mem_map.mpr ⟨r₀, by simp [hr], rfl⟩, ?_⟩
        have : min sys.length r₀.length = r₀.length := by omega
        rw [this, List.get?_eq_getElem?, List.getElem?_eq_none (le_refl _)]
        rfl

lemma card_extract_char_ngrams (line : List Char) (n : ℕ) :
    Multiset.card (extract_char_ngrams line n) = line.length + 1 - n := by
  unfold extract_char_ngrams
  rw [Multiset.coe_card, List.length_map, List.length_range]

lemma count_extract_char_ngrams (line : List Char) (n : ℕ) (g : List Char) :
    Multiset.count g (extract_char_ngrams line n) =
      (List.range (line.length + 1 - n)).countP fun i => decide ((line.drop i).take n = g) := by
  rw [show Multiset.count g (extract_char_ngrams line n) =
      Multiset.countP (fun x => g = x)
        (↑((List.range (line.length + 1 - n)).map fun i => (line.drop i).take n)) from rfl]
  rw [Multiset.coe_countP, List.countP_map]
  exact List.countP_congr fun i _ => by simp [eq_comm]

lemma mem_extract_char_ngrams (line : List Char) (n : ℕ) (g : List Char)
    (hg : g ∈ extract_char_ngrams line n) :
    g.length = n ∧ ∃ i, i + n ≤ line.length ∧ g = (line.drop i).take n := by
  obtain ⟨i, hi, rfl⟩ := List.mem_map.mp (Multiset.mem_coe.mp hg)
  have hi' : i < line.length + 1 - n := List.mem_range.mp hi
  refine ⟨?_, i, by omega, rfl⟩
  rw [List.length_take, List.length_drop]
  omega

lemma extract_char_ngrams_empty_of_short (line : List Char) (n : ℕ)
    (h : line.length < n) : extract_char_ngrams line n = 0 := by
  unfold extract_char_ngrams
  have : line.length + 1 - n = 0 := by omega
  rw [this, List.range_zero, List.map_nil, Multiset.coe_nil]

lemma getD_zipWith_add (v w : List ℕ) (k : ℕ) (hkv : k < v.length) (hkw : k < w.length) :
    (List.zipWith (· + ·) v w).getD k 0 = v.getD k 0 + w.getD k 0 := by
  have hk : k < (List.zipWith (· + ·) v w).length := by
    rw [List.length_zipWith]; exact lt_min hkv hkw
  rw [List.getD_eq_getElem _ _ hk, List.getD_eq_getElem _ _ hkv, List.getD_eq_getElem _ _ hkw,
    List.getElem_zipWith]

/-- Every freshly produced statistics vector satisfies the data-model
invariant. -/
lemma stats_invariant_holds (m : CHRF) (hyp : List Char) (refs : List (List Char)) :
    StatsInvariant m.order (m.get_sentence_statistics hyp refs) := by
  refine ⟨length_get_sentence_statistics m hyp refs, fun i hi => ?_⟩
  obtain ⟨h1, h2, h3⟩ := get_sentence_statistics_getD m hyp refs i hi
  rw [h1, h2, h3]
  exact le_min (Multiset.card_le_card (Multiset.inter_le_left _ _))
    (Multiset.card_le_card (Multiset.inter_le_right _ _))

/-- Element-wise addition preserves the statistics-vector invariant. -/
lemma stats_invariant_add (order : ℕ) (v w : List ℕ)
    (hv : StatsInvariant order v) (hw : StatsInvariant order w) :
    StatsInvariant order (List.zipWith (· + ·) v w) := by
  obtain ⟨hvl, hvt⟩ := hv
  obtain ⟨hwl, hwt⟩ := hw
  refine ⟨by rw [List.length_zipWith, hvl, hwl, min_self], fun i hi => ?_⟩
  have e0 := getD_zipWith_add v w (3 * i) (by omega) (by omega)
  have e1 := getD_zipWith_add v w (3 * i + 1) (by omega) (by omega)
  have e2 := getD_zipWith_add v w (3 * i + 2) (by omega) (by omega)
  rw [e0, e1, e2]
  have h1 := hvt i hi
  have h2 := hwt i hi
  omega

/-- Scoring a tokenized-nonempty segment against itself: every effective
order has precision and recall 1, so the F-beta combination is 1 for any
beta. -/
lemma compute_self_eq_one (m : CHRF) (s : List Char) (hne : m.tokenize s ≠ [])
    (hord : 0 < m.order) (beta : ℚ) :
    compute_chrf_score (m.get_sentence_statistics s [s]) m.order beta = 1 := by
  have hL : 0 < (m.tokenize s).length := List.length_pos.mpr hne
  have htrip : ∀ i < m.order,
      (m.get_sentence_statistics s [s]).getD (3 * i) 0 =
          Multiset.card (extract_char_ngrams (m.tokenize s) (i + 1)) ∧
        (m.get_sentence_statistics s [s]).getD (3 * i + 1) 0 =
          Multiset.card (extract_char_ngrams (m.tokenize s) (i + 1)) ∧
        (m.get_sentence_statistics s [s]).getD (3 * i + 2) 0 =
          Multiset.card (extract_char_ngrams (m.tokenize s) (i + 1)) := by
    intro i hi
    obtain ⟨h1, h2, h3⟩ := get_sentence_statistics_getD m s [s] i hi
    simp only [List.headD_cons] at h2 h3
    rw [multiset_inter_self] at h3
    exact ⟨h1, h2, h3⟩
  rw [compute_chrf_score_spec]
  have hzero : 0 ∈ effOrders (m.get_sentence_statistics s [s]) m.order := by
    obtain ⟨h1, h2, _⟩ := htrip 0 hord
    refine Finset.mem_filter.mpr ⟨Finset.mem_range.mpr hord, ?_, ?_⟩
    · rw [Nat.mul_zero, h1, card_extract_char_ngrams]; omega
    · rw [Nat.mul_zero, Nat.zero_add]
      have h2' := h2
      rw [Nat.mul_zero, Nat.zero_add] at h2'
      rw [h2', card_extract_char_ngrams]; omega
  have hcard : (effOrders (m.get_sentence_statistics s [s]) m.order).card ≠ 0 :=
    Finset.card_ne_zero_of_mem hzero
  rw [if_neg hcard]
  have hsump : ∀ i ∈ effOrders (m.get_sentence_statistics s [s]) m.order,
      ((m.get_sentence_statistics s [s]).getD (3 * i + 2) 0 : ℚ) /
        ((m.get_sentence_statistics s [s]).getD (3 * i) 0 : ℚ) = 1 := by
    intro i hmem
    obtain ⟨hir, hpos, _⟩ := Finset.mem_filter.mp hmem
    obtain ⟨h1, _, h3⟩ := htrip i (Finset.mem_range.mp hir)
    rw [h1] at hpos
    have hne' : ((Multiset.card (extract_char_ngrams (m.tokenize s) (i + 1)) : ℕ) : ℚ) ≠ 0 := by
      exact_mod_cast Nat.pos_iff_ne_zero.mp hpos
    rw [h1, h3, div_self hne']
  have hsumr : ∀ i ∈ effOrders (m.get_sentence_statistics s [s]) m.order,
      ((m.get_sentence_statistics s [s]).getD (3 * i + 2) 0 : ℚ) /
        ((m.get_sentence_statistics s [s]).getD (3 * i + 1) 0 : ℚ) = 1 := by
    intro i hmem
    obtain ⟨hir, _, hpos⟩ := Finset.mem_filter.mp hmem
    obtain ⟨_, h2, h3⟩ := htrip i (Finset.mem_range.mp hir)
    rw [h2] at hpos
    have hne' : ((Multiset.card (extract_char_ngrams (m.tokenize s) (i + 1)) : ℕ) : ℚ) ≠ 0 := by
      exact_mod_cast Nat.pos_iff_ne_zero.mp hpos
    rw [h2, h3, div_self hne']
  rw [Finset.sum_congr rfl hsump, Finset.sum_congr rfl hsumr, Finset.sum_const, nsmul_eq_mul,
    mul_one]
  have hc : ((effOrders (m.get_sentence_statistics s [s]) m.order).card : ℚ) ≠ 0 := by
    exact_mod_cast hcard
  rw [div_self hc]
  rw [if_neg (by norm_num)]
  have hb : beta ^ 2 * 1 + 1 ≠ 0 := by positivity
  have : (1 + beta ^ 2) * ((1 : ℚ) * 1) = beta ^ 2 * 1 + 1 := by ring
  rw [this, div_self hb]

lemma sentence_score_int_map (m : CHRF) (hyp : List Char) (refs : List (List Char)) (n : ℤ)
    (hb : m.beta = .int n) :
    (m.sentence_score hyp (.list refs)).map CHRFScore.score =
      .ok (compute_chrf_score (m.get_sentence_statistics hyp refs) m.order ((n : ℤ) : ℚ)) := by
  rw [show m.sentence_score hyp (.list refs) =
    compute_chrf (m.get_sentence_statistics hyp refs) m.order m.beta from rfl, hb]
  rfl

lemma corpus_score_int_map (m : CHRF) (sys : List (List Char))
    (refs : List (List (List Char))) (n : ℤ) (hb : m.beta = .int n)
    (h : ∀ r ∈ refs, r.length = sys.length) :
    (m.corpus_score (.stream sys) (.streams refs)).map CHRFScore.score =
      .ok (compute_chrf_score (pooledStats m sys refs) m.order ((n : ℤ) : ℚ)) := by
  rw [corpus_score_eq_pooled m sys refs h, hb]
  rfl

lemma compute_chrf_score_corpus_example :
    compute_chrf_score [3, 3, 2, 1, 1, 1, 0, 0, 0, 0, 0, 0, 0, 0, 0, 0, 0, 0] 6
      ((2 : ℤ) : ℚ) = 5 / 6 := by
  have hr : List.range 6 = [0, 1, 2, 3, 4, 5] := rfl
  unfold compute_chrf_score
  rw [hr]
  simp only [List.foldl_cons, List.foldl_nil]
  norm_num [chrfStep,
    show ([3, 3, 2, 1, 1, 1, 0, 0, 0, 0, 0, 0, 0, 0, 0, 0, 0, 0] : List ℕ).getD 0 0 = 3 from rfl,
    show ([3, 3, 2, 1, 1, 1, 0, 0, 0, 0, 0, 0, 0, 0, 0, 0, 0, 0] : List ℕ).getD 1 0 = 3 from rfl,
    show ([3, 3, 2, 1, 1, 1, 0, 0, 0, 0, 0, 0, 0, 0, 0, 0, 0, 0] : List ℕ).getD 2 0 = 2 from rfl,
    show ([3, 3, 2, 1, 1, 1, 0, 0, 0, 0, 0, 0, 0, 0, 0, 0, 0, 0] : List ℕ).getD 3 0 = 1 from rfl,
    show ([3, 3, 2, 1, 1, 1, 0, 0, 0, 0, 0, 0, 0, 0, 0, 0, 0, 0] : List ℕ).getD 4 0 = 1 from rfl,
    show ([3, 3, 2, 1, 1, 1, 0, 0, 0, 0, 0, 0, 0, 0, 0, 0, 0, 0] : List ℕ).getD 5 0 = 1 from rfl,
    show ([3, 3, 2, 1, 1, 1, 0, 0, 0, 0, 0, 0, 0, 0, 0, 0, 0, 0] : List ℕ).getD 6 0 = 0 from rfl,
    show ([3, 3, 2, 1, 1, 1, 0, 0, 0, 0, 0, 0, 0, 0, 0, 0, 0, 0] : List ℕ).getD 7 0 = 0 from rfl,
    show ([3, 3, 2, 1, 1, 1, 0, 0, 0, 0, 0, 0, 0, 0, 0, 0, 0, 0] : List ℕ).getD 9 0 = 0 from rfl,
    show ([3, 3, 2, 1, 1, 1, 0, 0, 0, 0, 0, 0, 0, 0, 0, 0, 0, 0] : List ℕ).getD 10 0 = 0 from rfl,
    show ([3, 3, 2, 1, 1, 1, 0, 0, 0, 0, 0, 0, 0, 0, 0, 0, 0, 0] : List ℕ).getD 12 0 = 0 from rfl,
    show ([3, 3, 2, 1, 1, 1, 0, 0, 0, 0, 0, 0, 0, 0, 0, 0, 0, 0] : List ℕ).getD 13 0 = 0 from rfl,
    show ([3, 3, 2, 1, 1, 1, 0, 0, 0, 0, 0, 0, 0, 0, 0, 0, 0, 0] : List ℕ).getD 15 0 = 0 from rfl,
    show ([3, 3, 2, 1, 1, 1, 0, 0, 0, 0, 0, 0, 0, 0, 0, 0, 0, 0] : List ℕ).getD 16 0 = 0 from rfl]

lemma compute_chrf_score_cd_example :
    compute_chrf_score [1, 1, 0, 0, 0, 0, 0, 0, 0, 0, 0, 0, 0, 0, 0, 0, 0, 0] 6
      ((2 : ℤ) : ℚ) = 0 := by
  have hr : List.range 6 = [0, 1, 2, 3, 4, 5] := rfl
  unfold compute_chrf_score
  rw [hr]
  simp only [List.foldl_cons, List.foldl_nil]
  norm_num [chrfStep,
    show ([1, 1, 0, 0, 0, 0, 0, 0, 0, 0, 0, 0, 0, 0, 0, 0, 0, 0] : List ℕ).getD 0 0 = 1 from rfl,
    show ([1, 1, 0, 0, 0, 0, 0, 0, 0, 0, 0, 0, 0, 0, 0, 0, 0, 0] : List ℕ).getD 1 0 = 1 from rfl,
    show ([1, 1, 0, 0, 0, 0, 0, 0, 0, 0, 0, 0, 0, 0, 0, 0, 0, 0] : List ℕ).getD 2 0 = 0 from rfl,
    show ([1, 1, 0, 0, 0, 0, 0, 0, 0, 0, 0, 0, 0, 0, 0, 0, 0, 0] : List ℕ).getD 3 0 = 0 from rfl,
    show ([1, 1, 0, 0, 0, 0, 0, 0, 0, 0, 0, 0, 0, 0, 0, 0, 0, 0] : List ℕ).getD 4 0 = 0 from rfl,
    show ([1, 1, 0, 0, 0, 0, 0, 0, 0, 0, 0, 0, 0, 0, 0, 0, 0, 0] : List ℕ).getD 6 0 = 0 from rfl,
    show ([1, 1, 0, 0, 0, 0, 0, 0, 0, 0, 0, 0, 0, 0, 0, 0, 0, 0] : List ℕ).getD 7 0 = 0 from rfl,
    show ([1, 1, 0, 0, 0, 0, 0, 0, 0, 0, 0, 0, 0, 0, 0, 0, 0, 0] : List ℕ).getD 9 0 = 0 from rfl,
    show ([1, 1, 0, 0, 0, 0, 0, 0, 0, 0, 0, 0, 0, 0, 0, 0, 0, 0] : List ℕ).getD 10 0 = 0 from rfl,
    show ([1, 1, 0, 0, 0, 0, 0, 0, 0, 0, 0, 0, 0, 0, 0, 0, 0, 0] : List ℕ).getD 12 0 = 0 from rfl,
    show ([1, 1, 0, 0, 0, 0, 0, 0, 0, 0, 0, 0, 0, 0, 0, 0, 0, 0] : List ℕ).getD 13 0 = 0 from rfl,
    show ([1, 1, 0, 0, 0, 0, 0, 0, 0, 0, 0, 0, 0, 0, 0, 0, 0, 0] : List ℕ).getD 15 0 = 0 from rfl,
    show ([1, 1, 0, 0, 0, 0, 0, 0, 0, 0, 0, 0, 0, 0, 0, 0, 0, 0] : List ℕ).getD 16 0 = 0 from rfl]

lemma compute_chrf_score_zeros :
    compute_chrf_score [0, 0, 0, 0, 0, 0, 0, 0, 0, 0, 0, 0, 0, 0, 0, 0, 0, 0] 6
      ((2 : ℤ) : ℚ) = 0 := by
  rw [compute_chrf_score_spec,
    show effOrders [0, 0, 0, 0, 0, 0, 0, 0, 0, 0, 0, 0, 0, 0, 0, 0, 0, 0] 6 = ∅ from by decide]
  simp

/-- Scoring a segment with non-empty default tokenization against itself
yields score exactly 1 through the whole `sentence_score` pipeline. -/
lemma sentence_score_self_eval (s : List Char) (hs : TokenizerChrf s ≠ []) :
    (chrfDefault.sentence_score s (.list [s])).map CHRFScore.score = .ok 1 := by
  rw [sentence_score_int_map chrfDefault s [s] 2 rfl,
    compute_self_eq_one chrfDefault s hs (by decide)]

lemma formatFixed_half_three : formatFixed (1 / 2) 3 = "0.500" := by
  unfold formatFixed
  rw [show ((1 / 2 : ℚ) * 10 ^ 3) = ((500 : ℤ) : ℚ) from by norm_num, round_intCast]
  decide

/-! ### Claim theorems -/

/-- C1: over equal-length streams, `corpus_score` returns exactly
`compute_chrf` applied once to the element-wise sum of the per-sentence
statistics vectors of the aligned pairs, starting from the all-zero vector;
and on the concrete two-sentence corpus `["ab", "c"]` vs `[["ab", "d"]]` the
corpus score is 5/6, while the two sentence scores are 1 and 0, so the corpus
score differs from their arithmetic mean 1/2. -/
theorem corpus_score_pools_statistics :
    (∀ (m : CHRF) (sys : List (List Char)) (refs : List (List (List Char))),
      (∀ r ∈ refs, r.length = sys.length) →
        m.corpus_score (.stream sys) (.streams refs) =
          compute_chrf (pooledStats m sys refs) m.order m.beta) ∧
      (chrfDefault.corpus_score (.stream ["ab".toList, "c".toList])
          (.streams [["ab".toList, "d".toList]])).map CHRFScore.score = .ok (5 / 6) ∧
      (chrfDefault.sentence_score "ab".toList (.list ["ab".toList])).map CHRFScore.score =
        .ok 1 ∧
      (chrfDefault.sentence_score "c".toList (.list ["d".toList])).map CHRFScore.score =
        .ok 0 ∧
      (5 : ℚ) / 6 ≠ (1 + 0) / 2 :=
  ⟨corpus_score_eq_pooled,
   by
    rw [corpus_score_int_map chrfDefault _ _ 2 rfl (by decide),
      show chrfDefault.order = 6 from rfl,
      show pooledStats chrfDefault ["ab".toList, "c".toList] [["ab".toList, "d".toList]] =
        [3, 3, 2, 1, 1, 1, 0, 0, 0, 0, 0, 0, 0, 0, 0, 0, 0, 0] from by decide,
      compute_chrf_score_corpus_example],
   sentence_score_self_eval "ab".toList (by decide),
   by
    rw [sentence_score_int_map chrfDefault _ _ 2 rfl,
      show chrfDefault.order = 6 from rfl,
      show chrfDefault.get_sentence_statistics "c".toList ["d".toList] =
        [1, 1, 0, 0, 0, 0, 0, 0, 0, 0, 0, 0, 0, 0, 0, 0, 0, 0] from by decide,
      compute_chrf_score_cd_example],
   by norm_num⟩

theorem corpus_score_pools_statistics_witness :
    chrfDefault.corpus_score (.stream ["ab".toList]) (.streams [["ab".toList]]) =
      compute_chrf (pooledStats chrfDefault ["ab".toList] [["ab".toList]])
        chrfDefault.order chrfDefault.beta :=
  corpus_score_pools_statistics.1 chrfDefault ["ab".toList] [["ab".toList]] (by decide)

/-- C2: the scorer averages precision and recall only over the effective
orders (hypothesis and reference counts both strictly positive), skipping
all other orders; an empty effective set gives precision = recall = 0 and
score 0; a zero precision-plus-recall sum gives score 0; otherwise the
F-beta combination applies.  In particular `sentence_score("", [""])` is
score 0.0, not an error. -/
theorem scorer_effective_order_policy :
    (∀ (statistics : List ℕ) (order : ℕ) (beta : ℚ),
      compute_chrf_score statistics order beta =
        if (effOrders statistics order).card = 0 then 0
        else
          let avg_precision :=
            (∑ i ∈ effOrders statistics order,
              (statistics.getD (3 * i + 2) 0 : ℚ) / (statistics.getD (3 * i) 0 : ℚ)) /
              ((effOrders statistics order).card : ℚ)
          let avg_recall :=
            (∑ i ∈ effOrders statistics order,
              (statistics.getD (3 * i + 2) 0 : ℚ) / (statistics.getD (3 * i + 1) 0 : ℚ)) /
              ((effOrders statistics order).card : ℚ)
          if avg_precision + avg_recall = 0 then 0
          else (1 + beta ^ 2) * (avg_precision * avg_recall) /
            (beta ^ 2 * avg_precision + avg_recall)) ∧
      (chrfDefault.sentence_score [] (.list [[]])).map CHRFScore.score = .ok 0 :=
  ⟨compute_chrf_score_spec,
   by
    rw [sentence_score_int_map chrfDefault [] [[]] 2 rfl,
      show chrfDefault.order = 6 from rfl,
      show chrfDefault.get_sentence_statistics [] [[]] =
        [0, 0, 0, 0, 0, 0, 0, 0, 0, 0, 0, 0, 0, 0, 0, 0, 0, 0] from by decide,
      compute_chrf_score_zeros]⟩

theorem scorer_effective_order_policy_witness :
    compute_chrf_score [1, 2, 1, 0, 0, 0] 2 2 =
      if (effOrders [1, 2, 1, 0, 0, 0] 2).card = 0 then 0
      else
        let avg_precision :=
          (∑ i ∈ effOrders [1, 2, 1, 0, 0, 0] 2,
            (([1, 2, 1, 0, 0, 0] : List ℕ).getD (3 * i + 2) 0 : ℚ) /
              (([1, 2, 1, 0, 0, 0] : List ℕ).getD (3 * i) 0 : ℚ)) /
            ((effOrders [1, 2, 1, 0, 0, 0] 2).card : ℚ)
        let avg_recall :=
          (∑ i ∈ effOrders [1, 2, 1, 0, 0, 0] 2,
            (([1, 2, 1, 0, 0, 0] : List ℕ).getD (3 * i + 2) 0 : ℚ) /
              (([1, 2, 1, 0, 0, 0] : List ℕ).getD (3 * i + 1) 0 : ℚ)) /
            ((effOrders [1, 2, 1, 0, 0, 0] 2).card : ℚ)
        if avg_precision + avg_recall = 0 then 0
        else (1 + (2 : ℚ) ^ 2) * (avg_precision * avg_recall) /
          ((2 : ℚ) ^ 2 * avg_precision + avg_recall) :=
  scorer_effective_order_policy.1 [1, 2, 1, 0, 0, 0] 2 2

/-- C3: `get_sentence_statistics` depends only on the first reference; for
each order `i + 1` with `i < order`, the triplet is the total hypothesis
n-gram count, the total first-reference n-gram count, and the multiset
intersection size — the sum over shared n-grams of the minimum of the two
multiplicities.  Concretely, "aa" vs "aaa" at order 1 yields
`common_count = 2`. -/
theorem statistics_first_reference_and_min_intersection :
    (∀ (m : CHRF) (hyp r : List Char) (rest rest' : List (List Char)),
      m.get_sentence_statistics hyp (r :: rest) = m.get_sentence_statistics hyp (r :: rest')) ∧
    (∀ (m : CHRF) (hyp r : List Char) (rest : List (List Char)) (i : ℕ), i < m.order →
      (m.get_sentence_statistics hyp (r :: rest)).getD (3 * i) 0 =
          Multiset.card (extract_char_ngrams (m.tokenize hyp) (i + 1)) ∧
        (m.get_sentence_statistics hyp (r :: rest)).getD (3 * i + 1) 0 =
          Multiset.card (extract_char_ngrams (m.tokenize r) (i + 1)) ∧
        (m.get_sentence_statistics hyp (r :: rest)).getD (3 * i + 2) 0 =
          ∑ g ∈ (extract_char_ngrams (m.tokenize hyp) (i + 1)).toFinset ∩
              (extract_char_ngrams (m.tokenize r) (i + 1)).toFinset,
            min ((extract_char_ngrams (m.tokenize hyp) (i + 1)).count g)
              ((extract_char_ngrams (m.tokenize r) (i + 1)).count g)) ∧
    (chrfDefault.get_sentence_statistics "aa".toList ["aaa".toList]).getD 2 0 = 2 := by
  refine ⟨fun m hyp r rest rest' => rfl, ?_, by decide⟩
  intro m hyp r rest i hi
  obtain ⟨h1, h2, h3⟩ := get_sentence_statistics_getD m hyp (r :: rest) i hi
  simp only [List.headD_cons] at h2 h3
  exact ⟨h1, h2, by rw [h3, card_inter_eq_sum_min]⟩

theorem statistics_first_reference_and_min_intersection_witness :
    (chrfDefault.get_sentence_statistics "aa".toList ("aaa".toList :: [])).getD (3 * 0) 0 =
        Multiset.card (extract_char_ngrams (chrfDefault.tokenize "aa".toList) (0 + 1)) ∧
      (chrfDefault.get_sentence_statistics "aa".toList ("aaa".toList :: [])).getD (3 * 0 + 1) 0 =
        Multiset.card (extract_char_ngrams (chrfDefault.tokenize "aaa".toList) (0 + 1)) ∧
      (chrfDefault.get_sentence_statistics "aa".toList ("aaa".toList :: [])).getD (3 * 0 + 2) 0 =
        ∑ g ∈ (extract_char_ngrams (chrfDefault.tokenize "aa".toList) (0 + 1)).toFinset ∩
            (extract_char_ngrams (chrfDefault.tokenize "aaa".toList) (0 + 1)).toFinset,
          min ((extract_char_ngrams (chrfDefault.tokenize "aa".toList) (0 + 1)).count g)
            ((extract_char_ngrams (chrfDefault.tokenize "aaa".toList) (0 + 1)).count g) :=
  statistics_first_reference_and_min_intersection.2.1 chrfDefault "aa".toList "aaa".toList []
    0 (by decide)

/-- C4: the n-gram extractor yields a multiset of total count
`max 0 (L - n + 1)`, whose members are the contiguous length-`n` slices,
counted with multiplicity (the count of a gram is the number of start
positions producing it); when `L < n` it yields the empty multiset and no
error. -/
theorem extractor_total_count_and_slices (line : List Char) (n : ℕ) :
    (Multiset.card (extract_char_ngrams line n) : ℤ) = max 0 ((line.length : ℤ) - n + 1) ∧
      (∀ g ∈ extract_char_ngrams line n,
        g.length = n ∧ ∃ i, i + n ≤ line.length ∧ g = (line.drop i).take n) ∧
      (∀ g, Multiset.count g (extract_char_ngrams line n) =
        (List.range (line.length + 1 - n)).countP fun i => decide ((line.drop i).take n = g)) ∧
      (line.length < n → extract_char_ngrams line n = 0) := by
  refine ⟨?_, fun g hg => mem_extract_char_ngrams line n g hg,
    fun g => count_extract_char_ngrams line n g,
    fun h => extract_char_ngrams_empty_of_short line n h⟩
  rw [card_extract_char_ngrams]
  omega

theorem extractor_total_count_and_slices_witness :
    extract_char_ngrams "a".toList 2 = 0 ∧
      (Multiset.card (extract_char_ngrams "ab".toList 1) : ℤ) =
        max 0 (("ab".toList.length : ℤ) - 1 + 1) :=
  ⟨(extractor_total_count_and_slices "a".toList 2).2.2.2 (by decide),
   (extractor_total_count_and_slices "ab".toList 1).1⟩

/-- C5 counterexample: the single-space string is non-empty, yet under the
default configuration (whitespace stripped by the tokenizer) scoring it
against itself gives score 0, not the maximum 1. -/
theorem identity_score_counterexample :
    " ".toList ≠ [] ∧
      (chrfDefault.sentence_score " ".toList (.list [" ".toList])).map CHRFScore.score =
        .ok 0 ∧
      (0 : ℚ) ≠ 1 :=
  ⟨by decide,
   by
    rw [sentence_score_int_map chrfDefault " ".toList [" ".toList] 2 rfl,
      show chrfDefault.order = 6 from rfl,
      show chrfDefault.get_sentence_statistics " ".toList [" ".toList] =
        [0, 0, 0, 0, 0, 0, 0, 0, 0, 0, 0, 0, 0, 0, 0, 0, 0, 0] from by decide,
      compute_chrf_score_zeros],
   by norm_num⟩

/-- C5 (amended): for every string whose tokenization under the default
configuration (all whitespace removed) is non-empty — in particular every
string containing at least one non-whitespace character —
`sentence_score(s, [s])` returns score exactly 1. -/
theorem identity_score_one (s : List Char) (hs : TokenizerChrf s ≠ []) :
    (chrfDefault.sentence_score s (.list [s])).map CHRFScore.score = .ok 1 :=
  sentence_score_self_eval s hs

theorem identity_score_one_witness :
    (chrfDefault.sentence_score "ab".toList (.list ["ab".toList])).map CHRFScore.score =
      .ok 1 :=
  identity_score_one "ab".toList (by decide)

/-- C6: `corpus_score` raises the stream-length-mismatch `EOFError` whenever
some reference stream's length differs from the hypothesis stream's (one
stream is exhausted while another still has elements) and returns no score;
with all streams of equal length it never raises that error.  Concretely, 3
hypotheses against 2 references raise it. -/
theorem corpus_length_mismatch_raises :
    (∀ (m : CHRF) (sys : List (List Char)) (refs : List (List (List Char)))
        (r₀ : List (List Char)), r₀ ∈ refs → r₀.length ≠ sys.length →
      m.corpus_score (.stream sys) (.streams refs) = .error streamMismatchMsg) ∧
    (∀ (m : CHRF) (sys : List (List Char)) (refs : List (List (List Char))),
      (∀ r ∈ refs, r.length = sys.length) →
        m.corpus_score (.stream sys) (.streams refs) ≠ .error streamMismatchMsg) ∧
    chrfDefault.corpus_score (.stream ["a".toList, "b".toList, "c".toList])
      (.streams [["a".toList, "b".toList]]) = .error streamMismatchMsg := by
  refine ⟨fun m sys refs r₀ hr hne => corpus_score_mismatch m sys refs r₀ hr hne, ?_, ?_⟩
  · intro m sys refs h
    rw [corpus_score_eq_pooled m sys refs h]
    exact compute_chrf_ne_mismatch _ _ _
  · exact corpus_score_mismatch chrfDefault _ _ ["a".toList, "b".toList] (by decide) (by decide)

theorem corpus_length_mismatch_raises_witness :
    chrfDefault.corpus_score (.stream ["a".toList]) (.streams [[]]) =
      .error streamMismatchMsg :=
  corpus_length_mismatch_raises.1 chrfDefault ["a".toList] [[]] [] (by decide) (by decide)

/-- C7: every statistics vector from `get_sentence_statistics` has length
`3 × order`, non-negative entries, and triplets with
`common_count ≤ min (hyp_count, ref_count)`; element-wise addition — the
only combining operation — preserves the invariant. -/
theorem statistics_vector_invariant :
    (∀ (m : CHRF) (hyp : List Char) (refs : List (List Char)),
      StatsInvariant m.order (m.get_sentence_statistics hyp refs) ∧
        ∀ i, 0 ≤ (m.get_sentence_statistics hyp refs).getD i 0) ∧
    (∀ (order : ℕ) (v w : List ℕ), StatsInvariant order v → StatsInvariant order w →
      StatsInvariant order (List.zipWith (· + ·) v w)) :=
  ⟨fun m hyp refs => ⟨stats_invariant_holds m hyp refs, fun _ => Nat.zero_le _⟩,
   stats_invariant_add⟩

theorem statistics_vector_invariant_witness :
    StatsInvariant 6 (List.zipWith (· + ·)
      (chrfDefault.get_sentence_statistics "ab".toList ["ab".toList])
      (chrfDefault.get_sentence_statistics "c".toList ["d".toList])) :=
  statistics_vector_invariant.2 6
    (chrfDefault.get_sentence_statistics "ab".toList ["ab".toList])
    (chrfDefault.get_sentence_statistics "c".toList ["d".toList])
    (by decide) (by decide)

/-- C8: `sentence_score` fails on a bare-string `references` argument with
the assertion error, before computing any statistics and returning no
score; on a proper list it proceeds directly to the statistics and scorer. -/
theorem sentence_score_rejects_string_references :
    (∀ (m : CHRF) (hyp s : List Char),
      m.sentence_score hyp (.str s) = .error sentenceScoreAssertMsg) ∧
    (∀ (m : CHRF) (hyp : List Char) (refs : List (List Char)),
      m.sentence_score hyp (.list refs) =
        compute_chrf (m.get_sentence_statistics hyp refs) m.order m.beta) :=
  ⟨fun _ _ _ => rfl, fun _ _ _ => rfl⟩

theorem sentence_score_rejects_string_references_witness :
    chrfDefault.sentence_score "ab".toList (.str "ab".toList) =
      .error sentenceScoreAssertMsg :=
  sentence_score_rejects_string_references.1 chrfDefault "ab".toList "ab".toList

/-- C9 counterexample: a Score constructed with beta 2 and order 6 formats at
width 2 as "chrF2 = 0.500" — the prefix records beta (not the configured
order) and the score is printed with width + 1 = 3 decimal places — so the
claimed "metric name + order, width decimals" rendering ("chrF6 = 0.50", or
"chrf6 = 0.50") is wrong, as is "0.50" for score-only mode. -/
theorem score_format_counterexample :
    (CHRFScore.init (1 / 2) (.int 2) 6).map (fun s => s.format 2 false "") =
        .ok "chrF2 = 0.500" ∧
      (CHRFScore.init (1 / 2) (.int 2) 6).map (fun s => s.format 2 true "") = .ok "0.500" ∧
      ("chrF2 = 0.500" ≠ "chrF6 = 0.50" ∧ "chrF2 = 0.500" ≠ "chrf6 = 0.50") ∧
      "0.500" ≠ "0.50" := by
  refine ⟨?_, ?_, ⟨by decide, by decide⟩, by decide⟩
  · rw [show (CHRFScore.init (1 / 2) (.int 2) 6).map (fun s => s.format 2 false "") =
        .ok ("chrF2 = " ++ formatFixed (1 / 2) 3) from rfl, formatFixed_half_three]
    decide
  · rw [show (CHRFScore.init (1 / 2) (.int 2) 6).map (fun s => s.format 2 true "") =
        .ok (formatFixed (1 / 2) 3) from rfl, formatFixed_half_three]

/-- C9 (amended): for a Score built with integer beta, `format(width=W)`
returns `"chrF<beta>[+<signature>] = <score to W+1 decimal places>"` — the
prefix holds beta, not the order — and `format(width=W, score_only=True)`
returns the score alone, also to W+1 decimal places. -/
theorem score_format_amended (sc : ℚ) (b : ℤ) (ord width : ℕ) (sig : String) (s : CHRFScore)
    (h : CHRFScore.init sc (.int b) ord = .ok s) :
    s.format width false sig =
        (if sig ≠ "" then "chrF" ++ toString b ++ "+" ++ sig
         else "chrF" ++ toString b) ++ " = " ++ formatFixed sc (width + 1) ∧
      s.format width true sig = formatFixed sc (width + 1) := by
  have hinit : CHRFScore.init sc (.int b) ord =
      .ok { score := sc, beta := .int b, order := ord, pfx := "chrF" ++ toString b } := rfl
  rw [hinit] at h
  injection h with h2
  subst h2
  exact ⟨rfl, rfl⟩

theorem score_format_amended_witness :
    CHRFScore.format
        { score := 1 / 2, beta := .int 2, order := 6, pfx := "chrF" ++ toString (2 : ℤ) }
        2 false "" =
      (if ("" : String) ≠ "" then "chrF" ++ toString (2 : ℤ) ++ "+" ++ ""
       else "chrF" ++ toString (2 : ℤ)) ++ " = " ++ formatFixed (1 / 2) (2 + 1) :=
  (score_format_amended (1 / 2) 2 6 2 ""
    { score := 1 / 2, beta := .int 2, order := 6, pfx := "chrF" ++ toString (2 : ℤ) } rfl).1

/-- C10: when the configured beta is a float (even an integer-valued one such
as 2.0), every scoring call fails while constructing the Score object,
because the report prefix formats beta with the integer format code; a
scoring call returns a Score only when beta is an int. -/
theorem float_beta_fails_scoring :
    (∀ (m : CHRF) (hyp : List Char) (refs : List (List Char)) (q : ℚ), m.beta = .float q →
      m.sentence_score hyp (.list refs) = .error intFormatErrMsg) ∧
    (∀ (m : CHRF) (sys : List (List Char)) (refs : List (List (List Char))) (q : ℚ),
      m.beta = .float q → (∀ r ∈ refs, r.length = sys.length) →
        m.corpus_score (.stream sys) (.streams refs) = .error intFormatErrMsg) ∧
    (∀ (m : CHRF) (hyp : List Char) (refs : List (List Char)) (s : CHRFScore),
      m.sentence_score hyp (.list refs) = .ok s → ∃ n : ℤ, m.beta = .int n) := by
  refine ⟨?_, ?_, ?_⟩
  · intro m hyp refs q hq
    rw [show m.sentence_score hyp (.list refs) =
      compute_chrf (m.get_sentence_statistics hyp refs) m.order m.beta from rfl, hq,
      compute_chrf_float_err]
  · intro m sys refs q hq h
    rw [corpus_score_eq_pooled m sys refs h, hq, compute_chrf_float_err]
  · intro m hyp refs s hs
    cases hbeta : m.beta with
    | int n => exact ⟨n, rfl⟩
    | float q =>
        rw [show m.sentence_score hyp (.list refs) =
          compute_chrf (m.get_sentence_statistics hyp refs) m.order m.beta from rfl, hbeta,
          compute_chrf_float_err] at hs
        exact absurd hs (fun h => Except.noConfusion h)

theorem float_beta_fails_scoring_witness :
    CHRF.sentence_score
        { whitespace := false, order := 6, beta := .float 2, lowercase := false, num_refs := 1 }
        "ab".toList (.list ["ab".toList]) = .error intFormatErrMsg :=
  float_beta_fails_scoring.1
    { whitespace := false, order := 6, beta := .float 2, lowercase := false, num_refs := 1 }
    "ab".toList ["ab".toList] 2 rfl

end SacreBLEU
